import Mathlib

/-!
Verification development for a Self-Organizing Map (SOM) training and
evaluation engine.  The embedding below mirrors the source code: numpy
arrays become nested lists of real numbers, scalar float operations become
real-number operations, and operations that can raise a Python exception
are modelled with `Option`/`Except` (returning `none`/`.error` exactly where
the source raises).

Two numeric functions of the source have structurally singular inputs on
which the float pipeline raises or produces non-finite values (`inf`/`nan`)
instead of a number: the Gaussian neighborhood kernel at `sigma = 0` and
the exponential decay at `start_val = 0` or `total_steps = 0`.  For each,
the development carries both the exact real-number model (`gauss_kernel`,
`exp_sched`), valid away from those inputs, and a float-behavior model
(`gauss_kernel_float`, `exp_sched_float`) that returns `none` exactly where
the source raises or yields a non-finite float, together with lemmas that
the two agree on the nondegenerate domain.  Ordinary finite-precision
rounding and overflow of regular finite arithmetic are abstracted to exact
real arithmetic throughout, as is conventional.
-/

set_option maxHeartbeats 1000000

/-- A sample or reference vector: one list entry per feature component. -/
abbrev Vec := List ℝ

/-- A weight grid: rows of columns of reference vectors, mirroring a numpy
array of shape `(rows, cols, input_dim)` in row-major layout. -/
abbrev Grid := List (List (List ℝ))

/-- Elementwise difference `ws - x` of a reference vector and an input
vector (numpy broadcast over the last axis). -/
noncomputable def vec_sub (ws x : Vec) : Vec :=
  List.zipWith (fun w xi => w - xi) ws x

/-- Euclidean norm of a vector, as `np.linalg.norm` computes it along the
last axis. -/
noncomputable def vec_norm (v : Vec) : ℝ :=
  Real.sqrt ((v.map (fun t => t ^ 2)).sum)

/-- The default distance function of the source:
`dist_fn = lambda x, ws: np.linalg.norm(ws - x, axis=-1)`, producing a
`rows × cols` array of distances. -/
noncomputable def dist_fn (x : Vec) (ws : Grid) : List (List ℝ) :=
  ws.map (fun row => row.map (fun v => vec_norm (vec_sub v x)))

/-- Index of the first occurrence of the minimal element, as `np.argmin`
computes it on a flattened array (returns 0 on an empty list, where numpy
would raise; callers in this development always pass non-empty lists). -/
def argminIdx {α : Type} [LinearOrder α] : List α → ℕ
  | [] => 0
  | a :: t => if ∀ b ∈ t, a ≤ b then 0 else argminIdx t + 1

/-- Conversion of a flat row-major index into a `(row, col)` coordinate,
as `np.unravel_index(idx, (rows, cols))` computes it for in-range indices. -/
def unravel_index (idx cols : ℕ) : ℕ × ℕ :=
  (idx / cols, idx % cols)

/-- Best-matching-unit search `_find_bmu`: distances of `x` to every
reference vector, `np.argmin` over the row-major flattening, then
`np.unravel_index` with the grid shape. -/
noncomputable def find_bmu (grid_sz : ℕ × ℕ) (weights : Grid) (x : Vec) : ℕ × ℕ :=
  unravel_index (argminIdx (dist_fn x weights).flatten) grid_sz.2

/-- Squared grid distances `_grid_distances`: for every cell `(r, c)` the
value `(br - r)^2 + (bc - c)^2` for the BMU position `(br, bc)`. -/
def grid_distances (grid_sz : ℕ × ℕ) (bmu_pos : ℕ × ℕ) : List (List ℤ) :=
  (List.range grid_sz.1).map (fun (r : ℕ) =>
    (List.range grid_sz.2).map (fun (c : ℕ) =>
      ((bmu_pos.1 : ℤ) - (r : ℤ)) ^ 2 + ((bmu_pos.2 : ℤ) - (c : ℤ)) ^ 2))

/-- Scalar Gaussian kernel applied elementwise by `_neighborhood_function`:
`np.exp(-grid_dist / (2 * sigma ** 2))`. -/
noncomputable def gauss_kernel (g : ℤ) (sigma : ℝ) : ℝ :=
  Real.exp (-(g : ℝ) / (2 * sigma ^ 2))

/-- The Gaussian kernel as numpy's float pipeline evaluates it, with
non-finite float results (`inf`/`nan`) modelled as `none` and finite
results as their exact real value.  For `sigma ≠ 0` the result is the
finite value `exp(-g / (2 sigma^2))`.  At `sigma = 0` the division
`-g / 0.0` yields `0.0 / 0.0 = nan` for `g = 0` (so `exp(nan) = nan`,
non-finite — this is the value at the BMU itself), `-inf` for `g > 0`
(so `exp(-inf) = 0.0`, finite), and `+inf` for `g < 0` (so
`exp(+inf) = inf`, non-finite; grid distances are never negative).  Numpy
emits only a RuntimeWarning for these divisions, never an exception. -/
noncomputable def gauss_kernel_float (g : ℤ) (sigma : ℝ) : Option ℝ :=
  if sigma = 0 then
    (if g = 0 then none
     else if 0 < g then some 0
     else none)
  else some (gauss_kernel g sigma)

/-- Neighborhood weights `_neighborhood_function`: the Gaussian kernel
applied elementwise to the grid-distance array.  The source performs the
division unconditionally; numpy float division by zero (when `sigma = 0`)
emits a runtime warning but raises no exception, so no error branch exists. -/
noncomputable def neighborhood_function (grid_dist : List (List ℤ)) (sigma : ℝ) :
    List (List ℝ) :=
  grid_dist.map (fun row => row.map (fun g => gauss_kernel g sigma))

/-- Per-component update of one reference vector `v` for input `x`:
`v + lr * h * (x - v)` broadcast over the feature axis. -/
noncomputable def update_cell (v x : Vec) (lr h : ℝ) : Vec :=
  List.zipWith (fun vi xi => vi + lr * h * (xi - vi)) v x

/-- Per-sample update `_update_weights`: locate the BMU, compute the
neighborhood weights, and apply
`weights += lr * neighborhood[..., None] * (x - weights)` over the grid. -/
noncomputable def update_weights (grid_sz : ℕ × ℕ) (weights : Grid) (x : Vec)
    (lr sigma : ℝ) : Grid :=
  let bmu_pos := find_bmu grid_sz weights x
  let nb := neighborhood_function (grid_distances grid_sz bmu_pos) sigma
  List.zipWith (fun hrow wrow =>
    List.zipWith (fun h v => update_cell v x lr h) hrow wrow) nb weights

/-- Scheduler state, mirroring the attributes stored by
`Scheduler.__init__` via `store_attr()` plus the derived fields. -/
structure Scheduler where
  start_val : ℝ
  end_val : ℝ
  step_size : ℕ
  n_samples : ℕ
  n_epochs : ℕ
  decay_fn : ℝ → ℝ → ℕ → ℕ → ℝ
  current_step : ℕ
  current_value : ℝ
  total_steps : ℕ

/-- Default exponential decay `exp_sched`:
`decay = -log(end_val / start_val) / n_steps; start_val * exp(-decay * i)`. -/
noncomputable def exp_sched (start_val end_val : ℝ) (i n_steps : ℕ) : ℝ :=
  let decay := -Real.log (end_val / start_val) / (n_steps : ℝ)
  start_val * Real.exp (-decay * (i : ℝ))

/-- The exponential decay as the source's float pipeline evaluates it,
with Python exceptions and non-finite results modelled as `none`:
the pure-Python division `end_val / start_val` raises `ZeroDivisionError`
when `start_val = 0` (before `np.log` is ever reached); a nonpositive
ratio makes `np.log` return `nan` (negative ratio — everything downstream
is `nan`) or `-inf` (zero ratio — the decay rate is `+inf`, so the value
at `i = 0` is `inf * 0 = nan` and at `i > 0` is
`start_val * exp(-inf) = 0`); with `n_steps = 0` the np.float64 division
`-log(ratio) / 0` yields `nan` for ratio `1` and `±inf` otherwise (only a
RuntimeWarning), making the value at `i = 0` equal `nan`, at `i > 0`
equal `0` for ratio `< 1`, and non-finite for ratio `> 1`.  On the
nondegenerate domain the result is the exact real value of `exp_sched`. -/
noncomputable def exp_sched_float (start_val end_val : ℝ) (i n_steps : ℕ) :
    Option ℝ :=
  if start_val = 0 then none
  else if end_val / start_val < 0 then none
  else if end_val / start_val = 0 then (if i = 0 then none else some 0)
  else if n_steps = 0 then
    (if end_val / start_val = 1 then none
     else if i = 0 then none
     else if end_val / start_val < 1 then some 0
     else none)
  else some (exp_sched start_val end_val i n_steps)

/-- Scheduler construction.  The only operation of `Scheduler.__init__`
that can raise is the integer division
`total_steps = (n_samples * n_epochs) // step_size`, which raises
`ZeroDivisionError` when `step_size = 0` (modelled as `none`).  No other
argument is validated. -/
def mkScheduler (start_val end_val : ℝ) (step_size n_samples n_epochs : ℕ)
    (decay_fn : ℝ → ℝ → ℕ → ℕ → ℝ) : Option Scheduler :=
  if step_size = 0 then none
  else some
    { start_val := start_val
      end_val := end_val
      step_size := step_size
      n_samples := n_samples
      n_epochs := n_epochs
      decay_fn := decay_fn
      current_step := 0
      current_value := start_val
      total_steps := n_samples * n_epochs / step_size }

/-- One `Scheduler.step(total_samples)` call: returns the updated scheduler
state together with the returned value. -/
def Scheduler.step (s : Scheduler) (total_samples : ℕ) : Scheduler × ℝ :=
  if total_samples % s.step_size = 0 then
    let v := s.decay_fn s.start_val s.end_val s.current_step s.total_steps
    ({ s with current_value := v, current_step := s.current_step + 1 }, v)
  else (s, s.current_value)

/-- Quantization error: the mean over all samples of the minimal distance
to the grid (`.min()` raises on an empty array, modelled by `List.min?`). -/
noncomputable def quantization_error (weights : Grid) (X : List Vec) : Option ℝ :=
  (X.mapM (fun x => ((dist_fn x weights).flatten).min?)).map
    (fun ms => ms.sum / (X.length : ℝ))

/-- Index of the second-smallest element: the first minimal index of the
list with the overall first minimal index removed, mapped back to an index
of the original list.  This determinizes the unspecified tie order of
`np.argpartition(..., 2)[:2]`, which returns the indices of the two
smallest values. -/
def second_min_idx {α : Type} [LinearOrder α] (l : List α) : ℕ :=
  let j1 := argminIdx l
  let k := argminIdx (l.eraseIdx j1)
  if k < j1 then k else k + 1

/-- The implemented non-adjacency test on a flattened distance list: the
flat indices of the first and second minimal entries are unravelled to
coordinates `(r1, c1)` and `(r2, c2)`, and the pair counts as non-adjacent
when `|r1 - r2| > 1` or `|c1 - c2| > 1` (the componentwise comparison of
the two coordinate arrays returned by `np.unravel_index`, exactly as the
source's `any(np.abs(x - y) > 1 for x, y in indices)` performs it). -/
def non_adjacent_pair {α : Type} [LinearOrder α] (cols : ℕ) (flat : List α) : Bool :=
  let p1 := unravel_index (argminIdx flat) cols
  let p2 := unravel_index (second_min_idx flat) cols
  decide (1 < ((p1.1 : ℤ) - (p2.1 : ℤ)).natAbs ∨
          1 < ((p1.2 : ℤ) - (p2.2 : ℤ)).natAbs)

/-- One `_check_bmu_adjacency` call: the two flat indices of the two
closest cells, unravelled to coordinates, checked for a coordinate
difference greater than 1.  `np.argpartition(d, 2)` raises
`ValueError: kth(=2) out of bounds` when the flattened grid has fewer
than 3 entries (modelled as `none`). -/
noncomputable def check_bmu_adjacency (grid_sz : ℕ × ℕ) (weights : Grid) (x : Vec) :
    Option Bool :=
  let flat := (dist_fn x weights).flatten
  if flat.length < 3 then none
  else some (non_adjacent_pair grid_sz.2 flat)

/-- Topographic error: `100 * n_errors / len(X)` where `n_errors` counts
samples whose two closest cells fail the adjacency check; a failure inside
any per-sample check propagates (the Python exception aborts the call). -/
noncomputable def topographic_error (grid_sz : ℕ × ℕ) (weights : Grid)
    (X : List Vec) : Option ℝ :=
  (X.mapM (check_bmu_adjacency grid_sz weights)).map
    (fun bs => 100 * ((bs.countP (fun b => b) : ℕ) : ℝ) / (X.length : ℝ))

/-- SOM model state: grid size, input dimension, and the weight grid,
which is `None` until initialized. -/
structure SOM where
  grid_sz : ℕ × ℕ
  input_dim : ℕ
  weights : Option Grid

/-- Query `transform`: one BMU coordinate per sample.  The model state is
returned alongside the coordinates to make explicit that the source only
reads `self.weights` and never writes any attribute.  With absent weights
the first distance computation fails (modelled as `none`). -/
noncomputable def SOM.transform (s : SOM) (X : List Vec) :
    Option (SOM × List (ℕ × ℕ)) :=
  match s.weights with
  | none => none
  | some w => some (s, X.map (fun x => find_bmu s.grid_sz w x))

/-- Random weight initialization `np.random.randn(*grid_sz, input_dim)`:
the ambient random draws are modelled as a given family `randn` of real
numbers, one per `(row, col, component)` position. -/
def init_weights_random (rows cols input_dim : ℕ) (randn : ℕ → ℕ → ℕ → ℝ) : Grid :=
  (List.range rows).map (fun r =>
    (List.range cols).map (fun c =>
      (List.range input_dim).map (fun i => randn r c i)))

/-- Linearly spaced points as `np.linspace(a, b, n)` produces them (for
`n = 1` the division by `n - 1 = 0` yields `a`, matching numpy's single
point). -/
noncomputable def linspace (a b : ℝ) (n : ℕ) : List ℝ :=
  (List.range n).map (fun (i : ℕ) => a + (b - a) * (i : ℝ) / ((n : ℝ) - 1))

/-- PCA initialization `_initialize_weights_pca`.  The PCA routine is an
external collaborator, so its outputs are parameters: the top-2 principal
components `pc1, pc2` and their explained variances `ev1, ev2`.  Both
coordinate axes use `n = grid_sz[0]` (the source reads only the first grid
dimension); `np.meshgrid(alpha, beta)` has `alpha_grid[i][j] = alpha[j]`
and `beta_grid[i][j] = beta[i]`, and each cell is
`alpha * pc1 + beta * pc2`. -/
noncomputable def init_weights_pca (rows : ℕ) (pc1 pc2 : Vec) (ev1 ev2 : ℝ) : Grid :=
  let alpha := (linspace (-1) 1 rows).map (fun t => t * Real.sqrt ev1)
  let beta := (linspace (-1) 1 rows).map (fun t => t * Real.sqrt ev2)
  beta.map (fun b => alpha.map (fun a =>
    List.zipWith (fun p q => a * p + b * q) pc1 pc2))

/-- Weight-initialization dispatch `_initialize_weights`.  The result is
`.error` where the source raises (`ValueError` for PCA without data),
`.ok (some grid)` where it returns a grid, and `.ok none` where the
function falls through every branch and implicitly returns `None`
(any method other than `"random"` and `"pca"`). -/
noncomputable def init_weights (rows cols input_dim : ℕ)
    (randn : ℕ → ℕ → ℕ → ℝ) (pca : List Vec → Vec × Vec × ℝ × ℝ)
    (X : Option (List Vec)) (method : String) : Except String (Option Grid) :=
  if method = "random" then .ok (some (init_weights_random rows cols input_dim randn))
  else if method = "pca" then
    match X with
    | none => .error "Data matrix X required for PCA initialization"
    | some data =>
      let r := pca data
      .ok (some (init_weights_pca rows r.1 r.2.1 r.2.2.1 r.2.2.2))
  else .ok none

/-- The weight-initialization step at the top of `fit`: existing weights
are kept, otherwise `_initialize_weights(X, self.init)` is called and its
result (possibly `None`) is stored unconditionally. -/
noncomputable def fit_init (weights : Option Grid) (rows cols input_dim : ℕ)
    (randn : ℕ → ℕ → ℕ → ℝ) (pca : List Vec → Vec × Vec × ℝ × ℝ)
    (X : List Vec) (method : String) : Except String (Option Grid) :=
  match weights with
  | some w => .ok (some w)
  | none => init_weights rows cols input_dim randn pca (some X) method

/-- The inner training loop of `fit` restricted to its weight mutation:
one `_update_weights` call per sample with that sample's scheduled
learning rate and radius. -/
noncomputable def train_samples (grid_sz : ℕ × ℕ) (weights : Grid)
    (samples : List (Vec × ℝ × ℝ)) : Grid :=
  samples.foldl (fun w s => update_weights grid_sz w s.1 s.2.1 s.2.2) weights

/-- Shape predicate for a weight grid: `rows` rows, each of `cols` cells,
each cell a vector of `input_dim` components — numpy shape
`(rows, cols, input_dim)`. -/
def grid_shape (w : Grid) (rows cols input_dim : ℕ) : Prop :=
  w.length = rows ∧ ∀ row ∈ w, row.length = cols ∧ ∀ v ∈ row, v.length = input_dim

/-- The first-minimum index is a valid index of any non-empty list. -/
theorem argminIdx_lt_length {α : Type} [LinearOrder α] (l : List α) (h : l ≠ []) :
    argminIdx l < l.length := by
  induction l with
  | nil => exact absurd rfl h
  | cons a t ih =>
    by_cases hall : ∀ b ∈ t, a ≤ b
    · simp only [argminIdx, if_pos hall, List.length_cons]
      exact Nat.succ_pos _
    · have ht : t ≠ [] := by
        rintro rfl
        exact hall (fun b hb => absurd hb (List.not_mem_nil b))
      simp only [argminIdx, if_neg hall, List.length_cons]
      exact Nat.succ_lt_succ (ih ht)

/-- The element at the first-minimum index is a lower bound of the list. -/
theorem argminIdx_le_getD {α : Type} [LinearOrder α] (l : List α) (d : α) :
    ∀ j < l.length, l.getD (argminIdx l) d ≤ l.getD j d := by
  induction l with
  | nil => intro j hj; simp at hj
  | cons a t ih =>
    intro j hj
    by_cases hall : ∀ b ∈ t, a ≤ b
    · simp only [argminIdx, if_pos hall, List.getD_cons_zero]
      cases j with
      | zero => simp
      | succ j =>
        simp only [List.getD_cons_succ]
        have hjt : j < t.length := by simpa using hj
        have : t.getD j d ∈ t := by
          rw [List.getD_eq_getElem t d hjt]; exact List.getElem_mem hjt
        exact hall _ this
    · simp only [argminIdx, if_neg hall, List.getD_cons_succ]
      cases j with
      | zero =>
        simp only [List.getD_cons_zero]
        push_neg at hall
        obtain ⟨b, hb, hba⟩ := hall
        obtain ⟨jb, hjb, hbe⟩ := List.mem_iff_getElem.mp hb
        have h1 : t.getD (argminIdx t) d ≤ t.getD jb d := ih jb hjb
        have h2 : t.getD jb d = b := by rw [List.getD_eq_getElem t d hjb, hbe]
        exact le_of_lt (lt_of_le_of_lt (h2 ▸ h1) hba)
      | succ j =>
        exact ih j (by simpa using hj)

/-- Every entry strictly before the first-minimum index is strictly larger:
the returned index is the first position attaining the minimum. -/
theorem argminIdx_first {α : Type} [LinearOrder α] (l : List α) (d : α) :
    ∀ j < argminIdx l, l.getD (argminIdx l) d < l.getD j d := by
  induction l with
  | nil => intro j hj; simp [argminIdx] at hj
  | cons a t ih =>
    intro j hj
    by_cases hall : ∀ b ∈ t, a ≤ b
    · simp [argminIdx, if_pos hall] at hj
    · simp only [argminIdx, if_neg hall] at hj ⊢
      cases j with
      | zero =>
        simp only [List.getD_cons_succ, List.getD_cons_zero]
        push_neg at hall
        obtain ⟨b, hb, hba⟩ := hall
        obtain ⟨jb, hjb, hbe⟩ := List.mem_iff_getElem.mp hb
        have h1 : t.getD (argminIdx t) d ≤ t.getD jb d := argminIdx_le_getD t d jb hjb
        have h2 : t.getD jb d = b := by rw [List.getD_eq_getElem t d hjb, hbe]
        exact lt_of_le_of_lt (h2 ▸ h1) hba
      | succ j =>
        simp only [List.getD_cons_succ]
        exact ih j (Nat.lt_of_succ_lt_succ hj)

/-- Length of the row-major flattening of a grid with uniform row length. -/
theorem flatten_length_uniform {α : Type} (w : List (List α)) (cols : ℕ)
    (hrow : ∀ row ∈ w, row.length = cols) : w.flatten.length = w.length * cols := by
  induction w with
  | nil => simp
  | cons a t ih =>
    simp only [List.flatten_cons, List.length_append, List.length_cons]
    rw [hrow a (by simp), ih (fun r hr => hrow r (by simp [hr]))]
    ring

/-- Entry `r * cols + c` of the row-major flattening of a grid with
uniform row length is entry `(r, c)` of the grid. -/
theorem flatten_getD_uniform {α : Type} (w : List (List α)) (cols : ℕ) (d : α)
    (hrow : ∀ row ∈ w, row.length = cols) :
    ∀ r c, r < w.length → c < cols →
      w.flatten.getD (r * cols + c) d = (w.getD r []).getD c d := by
  induction w with
  | nil => intro r c hr _; simp at hr
  | cons a t ih =>
    intro r c hr hc
    cases r with
    | zero =>
      simp only [List.flatten_cons, List.getD_cons_zero, Nat.zero_mul, Nat.zero_add]
      exact List.getD_append a t.flatten d c (by rw [hrow a (by simp)]; exact hc)
    | succ r =>
      have ha : a.length = cols := hrow a (by simp)
      have hge : a.length ≤ (r + 1) * cols + c := by
        rw [ha]
        calc cols ≤ (r + 1) * cols := Nat.le_mul_of_pos_left cols (Nat.succ_pos r)
        _ ≤ (r + 1) * cols + c := Nat.le_add_right _ _
      simp only [List.flatten_cons, List.getD_cons_succ]
      rw [List.getD_append_right a t.flatten d _ hge, ha]
      have hidx : (r + 1) * cols + c - cols = r * cols + c := by
        rw [Nat.succ_mul]; omega
      rw [hidx]
      exact ih (fun rr hrr => hrow rr (by simp [hrr])) r c (by simpa using hr) hc

/-- The distance array has one row per weight-grid row. -/
theorem dist_fn_length (x : Vec) (w : Grid) : (dist_fn x w).length = w.length := by
  simp [dist_fn]

/-- Rows of the distance array inherit the uniform row length of the grid. -/
theorem dist_fn_row_length (x : Vec) (w : Grid) (cols : ℕ)
    (hrow : ∀ row ∈ w, row.length = cols) :
    ∀ r ∈ dist_fn x w, r.length = cols := by
  intro r hr
  simp only [dist_fn, List.mem_map] at hr
  obtain ⟨row, hrow2, rfl⟩ := hr
  simp [hrow row hrow2]

/-- Entry `i` of a mapped index range, with a default for out-of-range
access. -/
theorem map_range_getD {α : Type} (n : ℕ) (f : ℕ → α) (d : α) (i : ℕ)
    (hi : i < n) : ((List.range n).map f).getD i d = f i := by
  have h : i < ((List.range n).map f).length := by
    rw [List.length_map, List.length_range]; exact hi
  rw [List.getD_eq_getElem _ _ h]
  simp

/-- Entry `(r, c)` of the squared grid-distance array. -/
theorem grid_distances_getD (rows cols : ℕ) (p : ℕ × ℕ) (r c : ℕ)
    (hr : r < rows) (hc : c < cols) :
    ((grid_distances (rows, cols) p).getD r []).getD c 0 =
      ((p.1 : ℤ) - (r : ℤ)) ^ 2 + ((p.2 : ℤ) - (c : ℤ)) ^ 2 := by
  unfold grid_distances
  rw [map_range_getD rows _ [] r hr]
  rw [map_range_getD cols _ 0 c hc]

/-- The Gaussian kernel at grid distance zero is exactly one, for every
radius (including the unguarded `sigma = 0`). -/
theorem gauss_kernel_at_zero (sigma : ℝ) : gauss_kernel 0 sigma = 1 := by
  simp [gauss_kernel]

/-- The Gaussian kernel is positive, hence nonnegative. -/
theorem gauss_kernel_nonneg (g : ℤ) (sigma : ℝ) : 0 ≤ gauss_kernel g sigma :=
  (Real.exp_pos _).le

/-- The Gaussian kernel is at most one on nonnegative grid distances. -/
theorem gauss_kernel_le_one (g : ℤ) (sigma : ℝ) (hg : 0 ≤ g) :
    gauss_kernel g sigma ≤ 1 := by
  rw [gauss_kernel, ← Real.exp_zero]
  apply Real.exp_le_exp.mpr
  have h1 : (0 : ℝ) ≤ (g : ℝ) := by exact_mod_cast hg
  have h2 : (0 : ℝ) ≤ 2 * sigma ^ 2 := by positivity
  have h3 := div_nonneg h1 h2
  rw [neg_div]
  linarith

/-- Away from the singular radius `sigma = 0`, the float evaluation of the
Gaussian kernel is finite and agrees with the exact real model. -/
theorem gauss_kernel_float_eq (g : ℤ) (sigma : ℝ) (h : sigma ≠ 0) :
    gauss_kernel_float g sigma = some (gauss_kernel g sigma) := by
  unfold gauss_kernel_float
  rw [if_neg h]

/-- The exact exponential decay returns `start_val` at step index 0. -/
theorem exp_sched_at_zero (a b : ℝ) (n : ℕ) : exp_sched a b 0 n = a := by
  simp [exp_sched]

/-- On the nondegenerate domain — nonzero `start_val`, positive ratio
`end_val / start_val`, nonzero `n_steps` — the float evaluation of the
exponential decay is finite and agrees with the exact real model. -/
theorem exp_sched_float_eq (a b : ℝ) (i n : ℕ) (ha : a ≠ 0)
    (hr : 0 < b / a) (hn : n ≠ 0) :
    exp_sched_float a b i n = some (exp_sched a b i n) := by
  unfold exp_sched_float
  rw [if_neg ha, if_neg (not_lt_of_gt hr), if_neg hr.ne', if_neg hn]

/-- Entry `i` of a zip of two lists, with defaults, under bounds on both
inputs. -/
theorem zipWith_getD {α β γ : Type} (f : α → β → γ) (l1 : List α) (l2 : List β)
    (d1 : α) (d2 : β) (d3 : γ) (i : ℕ) (h1 : i < l1.length) (h2 : i < l2.length) :
    (List.zipWith f l1 l2).getD i d3 = f (l1.getD i d1) (l2.getD i d2) := by
  have h : i < (List.zipWith f l1 l2).length := by
    rw [List.length_zipWith]; exact lt_min h1 h2
  rw [List.getD_eq_getElem _ _ h, List.getD_eq_getElem _ _ h1,
    List.getD_eq_getElem _ _ h2, List.getElem_zipWith]

/-- Entry `i` of a mapped list under a bound on the input list. -/
theorem map_getD {α β : Type} (f : α → β) (l : List α) (d' : β) (d : α) (i : ℕ)
    (h : i < l.length) : (l.map f).getD i d' = f (l.getD i d) := by
  have h2 : i < (l.map f).length := by rw [List.length_map]; exact h
  rw [List.getD_eq_getElem _ _ h2, List.getElem_map, List.getD_eq_getElem _ _ h]

/-- The neighborhood-weight array has the shape of the grid-distance array. -/
theorem neighborhood_function_length (gd : List (List ℤ)) (sigma : ℝ) :
    (neighborhood_function gd sigma).length = gd.length := by
  unfold neighborhood_function; rw [List.length_map]

/-- Row `r` of the neighborhood-weight array is the kernel mapped over row
`r` of the grid-distance array. -/
theorem neighborhood_function_row_getD (gd : List (List ℤ)) (sigma : ℝ) (r : ℕ)
    (h : r < gd.length) :
    (neighborhood_function gd sigma).getD r [] =
      (gd.getD r []).map (fun g => gauss_kernel g sigma) := by
  unfold neighborhood_function
  exact map_getD _ gd [] [] r h

/-- The grid-distance array has `rows` rows. -/
theorem grid_distances_length (rows cols : ℕ) (p : ℕ × ℕ) :
    (grid_distances (rows, cols) p).length = rows := by
  unfold grid_distances; rw [List.length_map, List.length_range]

/-- Row `r` of the grid-distance array has `cols` entries. -/
theorem grid_distances_row_length (rows cols : ℕ) (p : ℕ × ℕ) (r : ℕ)
    (hr : r < rows) :
    ((grid_distances (rows, cols) p).getD r []).length = cols := by
  unfold grid_distances
  rw [map_range_getD rows _ [] r hr, List.length_map, List.length_range]

/-- Pointwise value of the neighborhood-weighted update applied to a grid
of shape `(rows, cols, input_dim)`, for an arbitrary BMU coordinate. -/
theorem update_apply_getD (rows cols input_dim : ℕ) (w : Grid) (x : Vec)
    (lr sigma : ℝ) (bmu : ℕ × ℕ)
    (hlen : w.length = rows)
    (hmem : ∀ row ∈ w, row.length = cols ∧ ∀ v ∈ row, v.length = input_dim)
    (hx : x.length = input_dim) (r c i : ℕ)
    (hr : r < rows) (hc : c < cols) (hi : i < input_dim) :
    (((List.zipWith (fun hrow wrow =>
          List.zipWith (fun h v => update_cell v x lr h) hrow wrow)
          (neighborhood_function (grid_distances (rows, cols) bmu) sigma)
          w).getD r []).getD c []).getD i 0 =
      ((w.getD r []).getD c []).getD i 0 +
        lr * gauss_kernel
            (((bmu.1 : ℤ) - (r : ℤ)) ^ 2 + ((bmu.2 : ℤ) - (c : ℤ)) ^ 2) sigma *
          (x.getD i 0 - ((w.getD r []).getD c []).getD i 0) := by
  have hgd_len : (grid_distances (rows, cols) bmu).length = rows :=
    grid_distances_length rows cols bmu
  have hnb_len :
      (neighborhood_function (grid_distances (rows, cols) bmu) sigma).length
        = rows := by
    rw [neighborhood_function_length, hgd_len]
  have hrw : r < w.length := by rw [hlen]; exact hr
  have hrnb :
      r < (neighborhood_function (grid_distances (rows, cols) bmu) sigma).length := by
    rw [hnb_len]; exact hr
  rw [zipWith_getD _ _ _ [] [] [] r hrnb hrw]
  have hwr_mem : w.getD r [] ∈ w := by
    rw [List.getD_eq_getElem w [] hrw]; exact List.getElem_mem hrw
  have hwr_len : (w.getD r []).length = cols := (hmem _ hwr_mem).1
  have hnbr_eq :
      (neighborhood_function (grid_distances (rows, cols) bmu) sigma).getD r []
        = ((grid_distances (rows, cols) bmu).getD r []).map
            (fun g => gauss_kernel g sigma) :=
    neighborhood_function_row_getD _ sigma r (by rw [hgd_len]; exact hr)
  have hgdr_len : ((grid_distances (rows, cols) bmu).getD r []).length = cols :=
    grid_distances_row_length rows cols bmu r hr
  have hc1 :
      c < ((neighborhood_function (grid_distances (rows, cols) bmu) sigma).getD
        r []).length := by
    rw [hnbr_eq, List.length_map, hgdr_len]; exact hc
  have hc2 : c < (w.getD r []).length := by rw [hwr_len]; exact hc
  rw [zipWith_getD _ _ _ 0 [] [] c hc1 hc2]
  have hcell_mem : (w.getD r []).getD c [] ∈ w.getD r [] := by
    rw [List.getD_eq_getElem _ _ hc2]; exact List.getElem_mem hc2
  have hcell_len : ((w.getD r []).getD c []).length = input_dim :=
    (hmem _ hwr_mem).2 _ hcell_mem
  have hi1 : i < ((w.getD r []).getD c []).length := by rw [hcell_len]; exact hi
  have hi2 : i < x.length := by rw [hx]; exact hi
  unfold update_cell
  rw [zipWith_getD _ _ _ 0 0 0 i hi1 hi2]
  have hker :
      ((neighborhood_function (grid_distances (rows, cols) bmu) sigma).getD
          r []).getD c 0 =
        gauss_kernel
          (((bmu.1 : ℤ) - (r : ℤ)) ^ 2 + ((bmu.2 : ℤ) - (c : ℤ)) ^ 2) sigma := by
    rw [hnbr_eq, map_getD _ _ 0 0 c (by rw [hgdr_len]; exact hc),
      grid_distances_getD rows cols bmu r c hr hc]
  rw [hker]

/-- C1 (amended): for every input vector `x`, learning rate `lr`, and
nonzero neighborhood radius `sigma`, the per-sample update sets every
component of every reference vector `w[r,c]` to
`w[r,c] + lr * H[r,c] * (x - w[r,c])`, where
`H[r,c] = exp(-((br-r)^2 + (bc-c)^2) / (2*sigma^2))` for the BMU coordinate
`(br, bc)`; `H` equals 1 at the BMU and lies in `[0, 1]` everywhere, and on
this nonzero-radius domain the float evaluation of the kernel is finite and
agrees with the real model.  (At `sigma = 0` the source's kernel is `nan`
at the BMU and `0` elsewhere, so the `H` properties fail there — see the
counterexample.) -/
theorem C1_update_rule (rows cols input_dim : ℕ) (w : Grid) (x : Vec)
    (lr sigma : ℝ) (hsigma : sigma ≠ 0)
    (hshape : grid_shape w rows cols input_dim)
    (hx : x.length = input_dim) (r c i : ℕ)
    (hr : r < rows) (hc : c < cols) (hi : i < input_dim) :
    (((update_weights (rows, cols) w x lr sigma).getD r []).getD c []).getD i 0 =
      ((w.getD r []).getD c []).getD i 0 +
        lr * gauss_kernel
            ((((find_bmu (rows, cols) w x).1 : ℤ) - (r : ℤ)) ^ 2 +
              (((find_bmu (rows, cols) w x).2 : ℤ) - (c : ℤ)) ^ 2) sigma *
          (x.getD i 0 - ((w.getD r []).getD c []).getD i 0) ∧
    gauss_kernel
        ((((find_bmu (rows, cols) w x).1 : ℤ) -
            ((find_bmu (rows, cols) w x).1 : ℤ)) ^ 2 +
          (((find_bmu (rows, cols) w x).2 : ℤ) -
            ((find_bmu (rows, cols) w x).2 : ℤ)) ^ 2) sigma = 1 ∧
    (∀ g : ℤ, 0 ≤ g → 0 ≤ gauss_kernel g sigma ∧ gauss_kernel g sigma ≤ 1) ∧
    (∀ g : ℤ, gauss_kernel_float g sigma = some (gauss_kernel g sigma)) := by
  obtain ⟨hlen, hmem⟩ := hshape
  refine ⟨?_, ?_, ?_, ?_⟩
  · have h := update_apply_getD rows cols input_dim w x lr sigma
      (find_bmu (rows, cols) w x) hlen hmem hx r c i hr hc hi
    simpa only [update_weights] using h
  · simp only [sub_self]
    norm_num
    exact gauss_kernel_at_zero sigma
  · intro g hg
    exact ⟨gauss_kernel_nonneg g sigma, gauss_kernel_le_one g sigma hg⟩
  · intro g
    exact gauss_kernel_float_eq g sigma hsigma

/-- C1 counterexample: at `sigma = 0` — an admitted radius under the
claim's universal quantification — the float evaluation of the
neighborhood kernel at grid distance 0 (the distance of the BMU to
itself) is `nan` (`none`), not 1, while at positive grid distances it is
0; so `H` does not equal 1 at the BMU there and the claim fails at
`sigma = 0`. -/
theorem C1_update_rule_cex :
    gauss_kernel_float 0 0 = none ∧ gauss_kernel_float 1 0 = some 0 := by
  constructor
  · unfold gauss_kernel_float
    rw [if_pos rfl, if_pos rfl]
  · unfold gauss_kernel_float
    rw [if_pos rfl, if_neg (by decide), if_pos (by decide)]

/-- Witness for C1 at a concrete one-cell grid of input dimension one. -/
theorem C1_update_rule_witness :
    (1 : ℝ) ≠ 0 ∧
    grid_shape [[[(0 : ℝ)]]] 1 1 1 ∧
    ([(1 : ℝ)] : List ℝ).length = 1 ∧
    ((((update_weights (1, 1) [[[(0 : ℝ)]]] [(1 : ℝ)] 1 1).getD 0 []).getD 0
          []).getD 0 0 =
        (([[[(0 : ℝ)]]].getD 0 []).getD 0 []).getD 0 0 +
          1 * gauss_kernel
              ((((find_bmu (1, 1) [[[(0 : ℝ)]]] [(1 : ℝ)]).1 : ℤ) -
                  ((0 : ℕ) : ℤ)) ^ 2 +
                (((find_bmu (1, 1) [[[(0 : ℝ)]]] [(1 : ℝ)]).2 : ℤ) -
                  ((0 : ℕ) : ℤ)) ^ 2) 1 *
            (([(1 : ℝ)] : List ℝ).getD 0 0 -
              (([[[(0 : ℝ)]]].getD 0 []).getD 0 []).getD 0 0) ∧
      gauss_kernel
          ((((find_bmu (1, 1) [[[(0 : ℝ)]]] [(1 : ℝ)]).1 : ℤ) -
              ((find_bmu (1, 1) [[[(0 : ℝ)]]] [(1 : ℝ)]).1 : ℤ)) ^ 2 +
            (((find_bmu (1, 1) [[[(0 : ℝ)]]] [(1 : ℝ)]).2 : ℤ) -
              ((find_bmu (1, 1) [[[(0 : ℝ)]]] [(1 : ℝ)]).2 : ℤ)) ^ 2) 1 = 1 ∧
      (∀ g : ℤ, 0 ≤ g → 0 ≤ gauss_kernel g 1 ∧ gauss_kernel g 1 ≤ 1) ∧
      (∀ g : ℤ, gauss_kernel_float g 1 = some (gauss_kernel g 1))) := by
  have hshape : grid_shape [[[(0 : ℝ)]]] 1 1 1 := by
    refine ⟨rfl, ?_⟩
    intro row hrow
    simp only [List.mem_singleton] at hrow
    subst hrow
    refine ⟨rfl, ?_⟩
    intro v hv
    simp only [List.mem_singleton] at hv
    subst hv
    rfl
  exact ⟨one_ne_zero, hshape, rfl,
    C1_update_rule 1 1 1 [[[(0 : ℝ)]]] [(1 : ℝ)] 1 1 one_ne_zero hshape rfl
      0 0 0 (by decide) (by decide) (by decide)⟩

/-- C2 (amended): for every Scheduler with positive `step_size`, `step(n)`
with `n` an exact multiple of `step_size` recomputes `current_value` as
`decay_fn(start_val, end_val, current_step, total_steps)` and then
increments `current_step`; `step(n)` with `n` not a multiple returns the
previously computed `current_value` and leaves all scheduler state
unchanged.  For a freshly constructed scheduler with the default
exponential decay, the first call `step(0)` returns `start_val` provided
the parameters are nondegenerate — `start_val ≠ 0`,
`end_val / start_val > 0`, and `step_size ≤ n_samples * n_epochs` (so
`total_steps ≠ 0`) — and on that domain the float evaluation of the decay
at step index 0 is finite and agrees.  (With `total_steps = 0` the source
returns `nan` from `step(0)`, and with `start_val = 0` it raises — see the
counterexample.) -/
theorem C2_scheduler_step (s : Scheduler) (n : ℕ) (hpos : 0 < s.step_size)
    (a b : ℝ) (sz ns ne : ℕ) (t : Scheduler)
    (hmk : mkScheduler a b sz ns ne exp_sched = some t)
    (ha : a ≠ 0) (hratio : 0 < b / a) (hn : sz ≤ ns * ne) :
    (n % s.step_size = 0 →
      s.step n =
        ({ s with
            current_value :=
              s.decay_fn s.start_val s.end_val s.current_step s.total_steps,
            current_step := s.current_step + 1 },
          s.decay_fn s.start_val s.end_val s.current_step s.total_steps)) ∧
    (n % s.step_size ≠ 0 → s.step n = (s, s.current_value)) ∧
    ((t.step 0).2 = a ∧
      exp_sched_float a b 0 t.total_steps = some a) := by
  refine ⟨?_, ?_, ?_⟩
  · intro h
    simp [Scheduler.step, h]
  · intro h
    simp [Scheduler.step, h]
  · by_cases hsz : sz = 0
    · simp [mkScheduler, hsz] at hmk
    · simp only [mkScheduler, if_neg hsz] at hmk
      obtain rfl : _ = t := Option.some_inj.mp hmk
      have htot : ns * ne / sz ≠ 0 :=
        (Nat.div_pos hn (Nat.pos_of_ne_zero hsz)).ne'
      constructor
      · simp [Scheduler.step, exp_sched]
      · rw [exp_sched_float_eq a b 0 _ ha hratio htot, exp_sched_at_zero]

/-- C2 counterexample: `Scheduler(1.0, 0.01, 100, 10, 2)` has positive
`step_size` and constructs successfully with `total_steps = 20 // 100 = 0`,
but its first `step(0)` does not return `start_val = 1`: the decay
division `-log(0.01) / 0` yields `inf` (numpy warns, does not raise) and
`inf * 0 = nan`, so the returned value is `nan` (`none` in the float
model), refuting the unconditional `step(0) = start_val` conjunct. -/
theorem C2_scheduler_step_cex :
    (mkScheduler 1 (1/100) 100 10 2 exp_sched).map (fun t => t.total_steps) =
      some 0 ∧
    exp_sched_float 1 (1/100) 0 0 = none := by
  refine ⟨rfl, ?_⟩
  unfold exp_sched_float
  rw [if_neg (by norm_num), if_neg (by norm_num), if_neg (by norm_num),
    if_pos rfl, if_neg (by norm_num), if_pos rfl]

/-- Witness for C2 on a concrete scheduler with `step_size = 2` at the
non-multiple sample count 5, and the constructed default scheduler. -/
theorem C2_scheduler_step_witness :
    0 < (⟨1, 1/100, 2, 10, 3, exp_sched, 0, 1, 15⟩ : Scheduler).step_size ∧
    mkScheduler 1 (1/100) 2 10 3 exp_sched =
      some (⟨1, 1/100, 2, 10, 3, exp_sched, 0, 1, 15⟩ : Scheduler) ∧
    (1 : ℝ) ≠ 0 ∧ 0 < (1/100 : ℝ) / 1 ∧ 2 ≤ 10 * 3 ∧
    ((5 % (⟨1, 1/100, 2, 10, 3, exp_sched, 0, 1, 15⟩ : Scheduler).step_size = 0 →
      Scheduler.step (⟨1, 1/100, 2, 10, 3, exp_sched, 0, 1, 15⟩ : Scheduler) 5 =
        ({ (⟨1, 1/100, 2, 10, 3, exp_sched, 0, 1, 15⟩ : Scheduler) with
            current_value :=
              (⟨1, 1/100, 2, 10, 3, exp_sched, 0, 1, 15⟩ : Scheduler).decay_fn
                (⟨1, 1/100, 2, 10, 3, exp_sched, 0, 1, 15⟩ : Scheduler).start_val
                (⟨1, 1/100, 2, 10, 3, exp_sched, 0, 1, 15⟩ : Scheduler).end_val
                (⟨1, 1/100, 2, 10, 3, exp_sched, 0, 1, 15⟩ : Scheduler).current_step
                (⟨1, 1/100, 2, 10, 3, exp_sched, 0, 1, 15⟩ : Scheduler).total_steps,
            current_step :=
              (⟨1, 1/100, 2, 10, 3, exp_sched, 0, 1, 15⟩ : Scheduler).current_step
                + 1 },
          (⟨1, 1/100, 2, 10, 3, exp_sched, 0, 1, 15⟩ : Scheduler).decay_fn
            (⟨1, 1/100, 2, 10, 3, exp_sched, 0, 1, 15⟩ : Scheduler).start_val
            (⟨1, 1/100, 2, 10, 3, exp_sched, 0, 1, 15⟩ : Scheduler).end_val
            (⟨1, 1/100, 2, 10, 3, exp_sched, 0, 1, 15⟩ : Scheduler).current_step
            (⟨1, 1/100, 2, 10, 3, exp_sched, 0, 1, 15⟩ : Scheduler).total_steps)) ∧
    (5 % (⟨1, 1/100, 2, 10, 3, exp_sched, 0, 1, 15⟩ : Scheduler).step_size ≠ 0 →
      Scheduler.step (⟨1, 1/100, 2, 10, 3, exp_sched, 0, 1, 15⟩ : Scheduler) 5 =
        ((⟨1, 1/100, 2, 10, 3, exp_sched, 0, 1, 15⟩ : Scheduler),
          (⟨1, 1/100, 2, 10, 3, exp_sched, 0, 1, 15⟩ : Scheduler).current_value)) ∧
    ((Scheduler.step (⟨1, 1/100, 2, 10, 3, exp_sched, 0, 1, 15⟩ : Scheduler)
          0).2 = 1 ∧
      exp_sched_float 1 (1/100) 0
          (⟨1, 1/100, 2, 10, 3, exp_sched, 0, 1, 15⟩ : Scheduler).total_steps =
        some 1)) :=
  ⟨by decide, rfl, one_ne_zero, by norm_num, by decide,
    C2_scheduler_step (⟨1, 1/100, 2, 10, 3, exp_sched, 0, 1, 15⟩ : Scheduler) 5
      (by decide) 1 (1/100) 2 10 3
      (⟨1, 1/100, 2, 10, 3, exp_sched, 0, 1, 15⟩ : Scheduler) rfl
      one_ne_zero (by norm_num) (by decide)⟩

/-- C3: for every input vector and weight grid, `find_bmu` unravels the
`np.argmin` index of the row-major flattened distance list, and that index
is the first position attaining the minimal distance: every entry is at
least the value there, and every strictly earlier entry is strictly
larger.  Entry `r * cols + c` of the flattened list is the distance of
cell `(r, c)`, so ties are broken toward the first cell in row-major
order. -/
theorem C3_find_bmu_tie_break (rows cols : ℕ) (w : Grid) (x : Vec)
    (hrows : 0 < rows) (hcols : 0 < cols)
    (hlen : w.length = rows) (hrow : ∀ row ∈ w, row.length = cols) :
    find_bmu (rows, cols) w x =
      (argminIdx (dist_fn x w).flatten / cols,
        argminIdx (dist_fn x w).flatten % cols) ∧
    (dist_fn x w).flatten.length = rows * cols ∧
    argminIdx (dist_fn x w).flatten < (dist_fn x w).flatten.length ∧
    (∀ j < (dist_fn x w).flatten.length,
      (dist_fn x w).flatten.getD (argminIdx (dist_fn x w).flatten) 0 ≤
        (dist_fn x w).flatten.getD j 0) ∧
    (∀ j < argminIdx (dist_fn x w).flatten,
      (dist_fn x w).flatten.getD (argminIdx (dist_fn x w).flatten) 0 <
        (dist_fn x w).flatten.getD j 0) ∧
    (∀ r c, r < rows → c < cols →
      (dist_fn x w).flatten.getD (r * cols + c) 0 =
        ((dist_fn x w).getD r []).getD c 0) := by
  have hdrow : ∀ row ∈ dist_fn x w, row.length = cols :=
    dist_fn_row_length x w cols hrow
  have hdlen : (dist_fn x w).length = rows := by
    rw [dist_fn_length]; exact hlen
  have hflat : (dist_fn x w).flatten.length = rows * cols := by
    rw [flatten_length_uniform _ cols hdrow, hdlen]
  have hne : (dist_fn x w).flatten ≠ [] := by
    apply List.ne_nil_of_length_pos
    rw [hflat]
    exact Nat.mul_pos hrows hcols
  refine ⟨rfl, hflat, argminIdx_lt_length _ hne,
    fun j hj => argminIdx_le_getD _ 0 j hj,
    fun j hj => argminIdx_first _ 0 j hj,
    fun r c hr hc =>
      flatten_getD_uniform _ cols 0 hdrow r c (by rw [hdlen]; exact hr) hc⟩

/-- Witness for C3 on a concrete 1-by-2 grid whose two cells are exactly
equidistant from the input (a tie). -/
theorem C3_find_bmu_tie_break_witness :
    (0 : ℕ) < 1 ∧ (0 : ℕ) < 2 ∧
    ([[[(0 : ℝ)], [(0 : ℝ)]]] : Grid).length = 1 ∧
    (∀ row ∈ ([[[(0 : ℝ)], [(0 : ℝ)]]] : Grid), row.length = 2) ∧
    (find_bmu (1, 2) [[[(0 : ℝ)], [(0 : ℝ)]]] [(0 : ℝ)] =
        (argminIdx (dist_fn [(0 : ℝ)] [[[(0 : ℝ)], [(0 : ℝ)]]]).flatten / 2,
          argminIdx (dist_fn [(0 : ℝ)] [[[(0 : ℝ)], [(0 : ℝ)]]]).flatten % 2) ∧
      (dist_fn [(0 : ℝ)] [[[(0 : ℝ)], [(0 : ℝ)]]]).flatten.length = 1 * 2 ∧
      argminIdx (dist_fn [(0 : ℝ)] [[[(0 : ℝ)], [(0 : ℝ)]]]).flatten <
        (dist_fn [(0 : ℝ)] [[[(0 : ℝ)], [(0 : ℝ)]]]).flatten.length ∧
      (∀ j < (dist_fn [(0 : ℝ)] [[[(0 : ℝ)], [(0 : ℝ)]]]).flatten.length,
        (dist_fn [(0 : ℝ)] [[[(0 : ℝ)], [(0 : ℝ)]]]).flatten.getD
            (argminIdx (dist_fn [(0 : ℝ)] [[[(0 : ℝ)], [(0 : ℝ)]]]).flatten) 0 ≤
          (dist_fn [(0 : ℝ)] [[[(0 : ℝ)], [(0 : ℝ)]]]).flatten.getD j 0) ∧
      (∀ j < argminIdx (dist_fn [(0 : ℝ)] [[[(0 : ℝ)], [(0 : ℝ)]]]).flatten,
        (dist_fn [(0 : ℝ)] [[[(0 : ℝ)], [(0 : ℝ)]]]).flatten.getD
            (argminIdx (dist_fn [(0 : ℝ)] [[[(0 : ℝ)], [(0 : ℝ)]]]).flatten) 0 <
          (dist_fn [(0 : ℝ)] [[[(0 : ℝ)], [(0 : ℝ)]]]).flatten.getD j 0) ∧
      (∀ r c, r < 1 → c < 2 →
        (dist_fn [(0 : ℝ)] [[[(0 : ℝ)], [(0 : ℝ)]]]).flatten.getD (r * 2 + c) 0 =
          ((dist_fn [(0 : ℝ)] [[[(0 : ℝ)], [(0 : ℝ)]]]).getD r []).getD c 0)) :=
  ⟨by decide, by decide, rfl, by decide,
    C3_find_bmu_tie_break 1 2 [[[(0 : ℝ)], [(0 : ℝ)]]] [(0 : ℝ)]
      (by decide) (by decide) rfl (by decide)⟩

/-- Mapping an Option-valued function that succeeds on every element of a
list succeeds with the list of pointwise results. -/
theorem mapM_option_eq_map {α β : Type} (f : α → Option β) (g : α → β)
    (X : List α) (h : ∀ x ∈ X, f x = some (g x)) :
    X.mapM f = some (X.map g) := by
  induction X with
  | nil => rfl
  | cons a t ih =>
    rw [List.mapM_cons, h a (List.mem_cons_self a t)]
    simp only [ih (fun x hx => h x (List.mem_cons_of_mem a hx))]
    rfl

/-- On a grid with at least three cells, the per-sample adjacency check
succeeds and computes the implemented non-adjacency predicate. -/
theorem check_bmu_adjacency_eq (rows cols : ℕ) (w : Grid) (x : Vec)
    (hlen : w.length = rows) (hrow : ∀ row ∈ w, row.length = cols)
    (hcells : 3 ≤ rows * cols) :
    check_bmu_adjacency (rows, cols) w x =
      some (non_adjacent_pair cols (dist_fn x w).flatten) := by
  have hflat : (dist_fn x w).flatten.length = rows * cols := by
    rw [flatten_length_uniform _ cols (dist_fn_row_length x w cols hrow),
      dist_fn_length, hlen]
  have h3 : ¬ (dist_fn x w).flatten.length < 3 := by rw [hflat]; omega
  simp only [check_bmu_adjacency, if_neg h3]

/-- C4 (amended): for every non-empty dataset, on a grid with at least
three cells (smaller grids make `np.argpartition(d, 2)` raise),
`topographic_error` returns `100 * k / n` where `n` is the number of
samples and `k` counts the samples whose two closest grid cells
`(r1, c1)`, `(r2, c2)` satisfy `|r1 - r2| > 1` or `|c1 - c2| > 1` (the
componentwise comparison of the two coordinate arrays, as implemented);
the result lies in `[0, 100]`. -/
theorem C4_topographic_error_formula (rows cols : ℕ) (w : Grid) (X : List Vec)
    (hlen : w.length = rows) (hrow : ∀ row ∈ w, row.length = cols)
    (hcells : 3 ≤ rows * cols) (hX : X ≠ []) :
    topographic_error (rows, cols) w X =
      some (100 *
          ((X.countP (fun x => non_adjacent_pair cols (dist_fn x w).flatten) : ℕ) : ℝ) /
        (X.length : ℝ)) ∧
    0 ≤ 100 *
          ((X.countP (fun x => non_adjacent_pair cols (dist_fn x w).flatten) : ℕ) : ℝ) /
        (X.length : ℝ) ∧
    100 *
          ((X.countP (fun x => non_adjacent_pair cols (dist_fn x w).flatten) : ℕ) : ℝ) /
        (X.length : ℝ) ≤ 100 := by
  have hchk : ∀ x ∈ X, check_bmu_adjacency (rows, cols) w x =
      some (non_adjacent_pair cols (dist_fn x w).flatten) :=
    fun x _ => check_bmu_adjacency_eq rows cols w x hlen hrow hcells
  have hn : (0 : ℝ) < (X.length : ℝ) := by
    exact_mod_cast List.length_pos.mpr hX
  have hk : X.countP (fun x => non_adjacent_pair cols (dist_fn x w).flatten)
      ≤ X.length := List.countP_le_length _
  refine ⟨?_, ?_, ?_⟩
  · unfold topographic_error
    rw [mapM_option_eq_map _ _ X hchk]
    simp only [Option.map_some']
    rw [List.countP_map]
    rfl
  · positivity
  · rw [div_le_iff hn]
    have hkc : ((X.countP
        (fun x => non_adjacent_pair cols (dist_fn x w).flatten) : ℕ) : ℝ) ≤
        (X.length : ℝ) := by exact_mod_cast hk
    linarith

/-- C4 counterexample: on a single-cell grid and a one-sample dataset,
`topographic_error` produces no percentage at all (`np.argpartition` with
`kth = 2` raises on a length-1 array), refuting the unconditional claim
that it returns `100 * k / n`. -/
theorem C4_topographic_error_cex :
    topographic_error (1, 1) [[[(0 : ℝ)]]] [[(1 : ℝ)]] = none := rfl

/-- Witness for C4 on a concrete 1-by-3 grid and a one-sample dataset. -/
theorem C4_topographic_error_formula_witness :
    ([[[(0 : ℝ)], [(1 : ℝ)], [(2 : ℝ)]]] : Grid).length = 1 ∧
    (∀ row ∈ ([[[(0 : ℝ)], [(1 : ℝ)], [(2 : ℝ)]]] : Grid), row.length = 3) ∧
    3 ≤ 1 * 3 ∧ ([[(0 : ℝ)]] : List Vec) ≠ [] ∧
    (topographic_error (1, 3) [[[(0 : ℝ)], [(1 : ℝ)], [(2 : ℝ)]]] [[(0 : ℝ)]] =
        some (100 *
            ((([[(0 : ℝ)]] : List Vec).countP (fun x => non_adjacent_pair 3
              (dist_fn x [[[(0 : ℝ)], [(1 : ℝ)], [(2 : ℝ)]]]).flatten) : ℕ) : ℝ) /
          (([[(0 : ℝ)]] : List Vec).length : ℝ)) ∧
      0 ≤ 100 *
            ((([[(0 : ℝ)]] : List Vec).countP (fun x => non_adjacent_pair 3
              (dist_fn x [[[(0 : ℝ)], [(1 : ℝ)], [(2 : ℝ)]]]).flatten) : ℕ) : ℝ) /
          (([[(0 : ℝ)]] : List Vec).length : ℝ) ∧
      100 *
            ((([[(0 : ℝ)]] : List Vec).countP (fun x => non_adjacent_pair 3
              (dist_fn x [[[(0 : ℝ)], [(1 : ℝ)], [(2 : ℝ)]]]).flatten) : ℕ) : ℝ) /
          (([[(0 : ℝ)]] : List Vec).length : ℝ) ≤ 100) :=
  ⟨rfl, by decide, by decide, List.cons_ne_nil _ _,
    C4_topographic_error_formula 1 3 [[[(0 : ℝ)], [(1 : ℝ)], [(2 : ℝ)]]]
      [[(0 : ℝ)]] rfl (by decide) (by decide) (List.cons_ne_nil _ _)⟩

/-- C6 counterexample: with grid size `(1,1)` and a non-empty dataset,
`topographic_error` does not return `0` — the underlying
`np.argpartition(d, 2)` call raises on the length-1 distance array, so no
value is produced at all. -/
theorem C6_single_cell_cex :
    topographic_error (1, 1) [[[(0 : ℝ)]]] [[(2 : ℝ)]] ≠ some 0 :=
  fun h => Option.noConfusion h

/-- C6 (amended): for a model with grid size `(1,1)` and any non-empty
dataset, `find_bmu` returns `(0,0)` for every sample and
`quantization_error` equals the mean distance of all samples to the single
reference vector; `topographic_error`, however, fails (the
`np.argpartition(d, 2)` call raises on fewer than 3 cells) instead of
returning 0. -/
theorem C6_single_cell (v : Vec) (X : List Vec) (hX : X ≠ []) :
    (∀ x ∈ X, find_bmu (1, 1) [[v]] x = (0, 0)) ∧
    quantization_error [[v]] X =
      some ((X.map (fun x => vec_norm (vec_sub v x))).sum / (X.length : ℝ)) ∧
    topographic_error (1, 1) [[v]] X = none := by
  refine ⟨?_, ?_, ?_⟩
  · intro x _
    unfold find_bmu
    rw [show argminIdx (dist_fn x [[v]]).flatten = 0 from rfl]
    rfl
  · unfold quantization_error
    rw [mapM_option_eq_map (fun x => ((dist_fn x [[v]]).flatten).min?)
      (fun x => vec_norm (vec_sub v x)) X (fun x _ => rfl)]
    rfl
  · obtain ⟨a, t, rfl⟩ := List.exists_cons_of_ne_nil hX
    unfold topographic_error
    rw [List.mapM_cons, show check_bmu_adjacency (1, 1) [[v]] a = none from rfl]
    rfl

/-- Witness for C6 on a concrete single-cell model and one-sample dataset. -/
theorem C6_single_cell_witness :
    ([[(1 : ℝ)]] : List Vec) ≠ [] ∧
    ((∀ x ∈ ([[(1 : ℝ)]] : List Vec),
        find_bmu (1, 1) [[[(0 : ℝ)]]] x = (0, 0)) ∧
      quantization_error [[[(0 : ℝ)]]] [[(1 : ℝ)]] =
        some ((([[(1 : ℝ)]] : List Vec).map
            (fun x => vec_norm (vec_sub [(0 : ℝ)] x))).sum /
          (([[(1 : ℝ)]] : List Vec).length : ℝ)) ∧
      topographic_error (1, 1) [[[(0 : ℝ)]]] [[(1 : ℝ)]] = none) :=
  ⟨List.cons_ne_nil _ _,
    C6_single_cell [(0 : ℝ)] [[(1 : ℝ)]] (List.cons_ne_nil _ _)⟩

/-- Every row of the neighborhood-weight array over a `(rows, cols)` grid
has `cols` entries. -/
theorem neighborhood_rows_length (rows cols : ℕ) (p : ℕ × ℕ) (sigma : ℝ) :
    ∀ row ∈ neighborhood_function (grid_distances (rows, cols) p) sigma,
      row.length = cols := by
  intro row hrow
  unfold neighborhood_function at hrow
  obtain ⟨gdr, hgdr, rfl⟩ := List.mem_map.mp hrow
  rw [List.length_map]
  unfold grid_distances at hgdr
  obtain ⟨r, hr, rfl⟩ := List.mem_map.mp hgdr
  rw [List.length_map, List.length_range]

/-- The per-sample update preserves the `(rows, cols, input_dim)` shape of
the weight grid. -/
theorem update_weights_shape (rows cols input_dim : ℕ) (w : Grid) (x : Vec)
    (lr sigma : ℝ) (hshape : grid_shape w rows cols input_dim)
    (hx : x.length = input_dim) :
    grid_shape (update_weights (rows, cols) w x lr sigma) rows cols input_dim := by
  obtain ⟨hlen, hmem⟩ := hshape
  simp only [update_weights]
  set nb := neighborhood_function
    (grid_distances (rows, cols) (find_bmu (rows, cols) w x)) sigma with hnb
  have hnb_len : nb.length = rows := by
    rw [hnb, neighborhood_function_length, grid_distances_length]
  refine ⟨by rw [List.length_zipWith, hnb_len, hlen, min_self], ?_⟩
  intro row hrowmem
  obtain ⟨k, hk, rfl⟩ := List.mem_iff_getElem.mp hrowmem
  have hkk := hk
  rw [List.length_zipWith] at hkk
  have hk1 : k < nb.length := lt_of_lt_of_le hkk (min_le_left _ _)
  have hk2 : k < w.length := lt_of_lt_of_le hkk (min_le_right _ _)
  rw [List.getElem_zipWith]
  have hwk_mem : w[k] ∈ w := List.getElem_mem hk2
  have hwk : w[k].length = cols := (hmem _ hwk_mem).1
  have hnbk : nb[k].length = cols :=
    neighborhood_rows_length rows cols (find_bmu (rows, cols) w x) sigma nb[k]
      (by rw [← hnb] at *; exact List.getElem_mem hk1)
  refine ⟨by rw [List.length_zipWith, hwk, hnbk, min_self], ?_⟩
  intro cell hcell
  obtain ⟨j, hj, rfl⟩ := List.mem_iff_getElem.mp hcell
  have hjj := hj
  rw [List.length_zipWith] at hjj
  have hj2 : j < w[k].length := lt_of_lt_of_le hjj (min_le_right _ _)
  rw [List.getElem_zipWith]
  unfold update_cell
  rw [List.length_zipWith, hx,
    (hmem _ hwk_mem).2 _ (List.getElem_mem hj2), min_self]

/-- Random initialization produces shape `(rows, cols, input_dim)`. -/
theorem init_weights_random_shape (rows cols input_dim : ℕ)
    (randn : ℕ → ℕ → ℕ → ℝ) :
    grid_shape (init_weights_random rows cols input_dim randn)
      rows cols input_dim := by
  unfold init_weights_random grid_shape
  refine ⟨by rw [List.length_map, List.length_range], ?_⟩
  intro row hrow
  obtain ⟨r, hr, rfl⟩ := List.mem_map.mp hrow
  refine ⟨by rw [List.length_map, List.length_range], ?_⟩
  intro v hv
  obtain ⟨c, hc, rfl⟩ := List.mem_map.mp hv
  rw [List.length_map, List.length_range]

/-- PCA initialization produces shape `(rows, rows, input_dim)`: both
coordinate axes are sized by the first grid dimension. -/
theorem init_weights_pca_shape (rows input_dim : ℕ) (pc1 pc2 : Vec)
    (ev1 ev2 : ℝ) (h1 : pc1.length = input_dim) (h2 : pc2.length = input_dim) :
    grid_shape (init_weights_pca rows pc1 pc2 ev1 ev2) rows rows input_dim := by
  have hlin : (linspace (-1) 1 rows).length = rows := by
    unfold linspace
    rw [List.length_map, List.length_range]
  simp only [init_weights_pca]
  unfold grid_shape
  refine ⟨by rw [List.length_map, List.length_map, hlin], ?_⟩
  intro row hrow
  obtain ⟨b, hb, rfl⟩ := List.mem_map.mp hrow
  refine ⟨by rw [List.length_map, List.length_map, hlin], ?_⟩
  intro v hv
  obtain ⟨a, ha, rfl⟩ := List.mem_map.mp hv
  rw [List.length_zipWith, h1, h2, min_self]

/-- The sample-by-sample training loop preserves the weight-grid shape. -/
theorem train_samples_shape (rows cols input_dim : ℕ) (w : Grid)
    (samples : List (Vec × ℝ × ℝ)) (hshape : grid_shape w rows cols input_dim)
    (hs : ∀ s ∈ samples, s.1.length = input_dim) :
    grid_shape (train_samples (rows, cols) w samples) rows cols input_dim := by
  induction samples generalizing w with
  | nil => exact hshape
  | cons s t ih =>
    unfold train_samples
    rw [List.foldl_cons]
    exact ih _ (update_weights_shape rows cols input_dim w s.1 s.2.1 s.2.2 hshape
        (hs s (List.mem_cons_self s t)))
      (fun u hu => hs u (List.mem_cons_of_mem s hu))

/-- C5 (amended): random initialization produces shape
`(rows, cols, input_dim)`; PCA initialization produces shape
`(rows, rows, input_dim)` — both axes sized by the first grid dimension,
which coincides with the claimed `(rows, cols, input_dim)` only on square
grids; the per-sample update and the training loop never change the
shape. -/
theorem C5_weight_shapes (rows cols input_dim : ℕ) (randn : ℕ → ℕ → ℕ → ℝ)
    (pc1 pc2 : Vec) (ev1 ev2 : ℝ)
    (h1 : pc1.length = input_dim) (h2 : pc2.length = input_dim) :
    grid_shape (init_weights_random rows cols input_dim randn)
      rows cols input_dim ∧
    grid_shape (init_weights_pca rows pc1 pc2 ev1 ev2) rows rows input_dim ∧
    (∀ (w : Grid) (x : Vec) (lr sigma : ℝ),
      grid_shape w rows cols input_dim → x.length = input_dim →
      grid_shape (update_weights (rows, cols) w x lr sigma)
        rows cols input_dim) ∧
    (∀ (w : Grid) (samples : List (Vec × ℝ × ℝ)),
      grid_shape w rows cols input_dim →
      (∀ s ∈ samples, s.1.length = input_dim) →
      grid_shape (train_samples (rows, cols) w samples) rows cols input_dim) :=
  ⟨init_weights_random_shape rows cols input_dim randn,
    init_weights_pca_shape rows input_dim pc1 pc2 ev1 ev2 h1 h2,
    fun w x lr sigma hs hx =>
      update_weights_shape rows cols input_dim w x lr sigma hs hx,
    fun w samples hs hsamp =>
      train_samples_shape rows cols input_dim w samples hs hsamp⟩

/-- C5 counterexample: on the non-square grid size `(1, 2)` the PCA
initialization produces shape `(1, 1, 1)` — not the claimed
`(rows, cols, input_dim) = (1, 2, 1)` — because the source sizes both
coordinate axes by `grid_sz[0]`. -/
theorem C5_weight_shapes_cex :
    grid_shape (init_weights_pca 1 [(1 : ℝ)] [(1 : ℝ)] 1 1) 1 1 1 ∧
    ¬ grid_shape (init_weights_pca 1 [(1 : ℝ)] [(1 : ℝ)] 1 1) 1 2 1 := by
  have hshape1 := init_weights_pca_shape 1 1 [(1 : ℝ)] [(1 : ℝ)] 1 1 rfl rfl
  refine ⟨hshape1, ?_⟩
  rintro ⟨hl, hmem⟩
  have hne : init_weights_pca 1 [(1 : ℝ)] [(1 : ℝ)] 1 1 ≠ [] := by
    apply List.ne_nil_of_length_pos
    rw [hshape1.1]
    exact Nat.one_pos
  obtain ⟨row, hrow⟩ := List.exists_mem_of_ne_nil _ hne
  have e1 : row.length = 1 := (hshape1.2 row hrow).1
  have e2 : row.length = 2 := (hmem row hrow).1
  omega

/-- Witness for C5 on a concrete square grid and unit principal
components. -/
theorem C5_weight_shapes_witness :
    ([(1 : ℝ)] : Vec).length = 1 ∧
    (grid_shape (init_weights_random 2 2 1 (fun _ _ _ => 0)) 2 2 1 ∧
      grid_shape (init_weights_pca 2 [(1 : ℝ)] [(1 : ℝ)] 1 1) 2 2 1 ∧
      (∀ (w : Grid) (x : Vec) (lr sigma : ℝ),
        grid_shape w 2 2 1 → x.length = 1 →
        grid_shape (update_weights (2, 2) w x lr sigma) 2 2 1) ∧
      (∀ (w : Grid) (samples : List (Vec × ℝ × ℝ)),
        grid_shape w 2 2 1 →
        (∀ s ∈ samples, s.1.length = 1) →
        grid_shape (train_samples (2, 2) w samples) 2 2 1)) :=
  ⟨rfl, C5_weight_shapes 2 2 1 (fun _ _ _ => 0) [(1 : ℝ)] [(1 : ℝ)] 1 1 rfl rfl⟩

/-- C7 counterexample: a Scheduler with `start_val = 0` (undefined
logarithm under the default exponential decay) is not rejected at
construction: `Scheduler.__init__` validates nothing, so the zero
`start_val` is stored and the scheduler does reach a `step` call; only
there does the default `exp_sched` fail, with a `ZeroDivisionError` from
the pure-Python division `end_val / start_val` (modelled as `none` by its
float evaluation). -/
theorem C7_scheduler_validation_cex :
    (mkScheduler 0 (1/100) 100 10 2 exp_sched).isSome = true ∧
    (mkScheduler 0 (1/100) 100 10 2 exp_sched).map (fun t => t.start_val) =
      some 0 ∧
    exp_sched_float 0 (1/100) 0 0 = none := by
  refine ⟨rfl, rfl, ?_⟩
  unfold exp_sched_float
  rw [if_pos rfl]

/-- C7 (amended): `step_size = 0` is rejected at construction — the
`total_steps` floor division raises `ZeroDivisionError` — but a zero
`start_val` or `end_val` is not validated: construction succeeds for every
start and end value whenever `step_size` is nonzero, so such a scheduler
does reach `step` calls; with `start_val = 0` the failure happens only
there, inside the default decay function, whose pure-Python division
`end_val / start_val` raises `ZeroDivisionError`. -/
theorem C7_scheduler_validation (a b : ℝ) (sz ns ne : ℕ)
    (f : ℝ → ℝ → ℕ → ℕ → ℝ) (i m : ℕ) (hsz : sz ≠ 0) :
    mkScheduler a b 0 ns ne f = none ∧
    mkScheduler a b sz ns ne f =
      some { start_val := a, end_val := b, step_size := sz, n_samples := ns,
             n_epochs := ne, decay_fn := f, current_step := 0,
             current_value := a, total_steps := ns * ne / sz } ∧
    (a = 0 → exp_sched_float a b i m = none) := by
  refine ⟨rfl, ?_, ?_⟩
  · unfold mkScheduler
    rw [if_neg hsz]
  · intro h
    unfold exp_sched_float
    rw [if_pos h]

/-- Witness for C7 with zero start and end values and `step_size = 7`. -/
theorem C7_scheduler_validation_witness :
    (7 : ℕ) ≠ 0 ∧
    (mkScheduler 0 0 0 3 4 exp_sched = none ∧
      mkScheduler 0 0 7 3 4 exp_sched =
        some { start_val := 0, end_val := 0, step_size := 7, n_samples := 3,
               n_epochs := 4, decay_fn := exp_sched, current_step := 0,
               current_value := 0, total_steps := 3 * 4 / 7 } ∧
      ((0 : ℝ) = 0 → exp_sched_float 0 0 1 5 = none)) :=
  ⟨by decide, C7_scheduler_validation 0 0 7 3 4 exp_sched 1 5 (by decide)⟩

/-- C8 counterexample: at `sigma = 0` the neighborhood computation is not
rejected — the Gaussian kernel pipeline evaluates and produces a full
2-by-2 weight array instead of raising an error. -/
theorem C8_sigma_zero_cex :
    (neighborhood_function (grid_distances (2, 2) (0, 0)) 0).length = 2 ∧
    ((neighborhood_function (grid_distances (2, 2) (0, 0)) 0).getD 0
      []).length = 2 := by
  refine ⟨?_, rfl⟩
  rw [neighborhood_function_length, grid_distances_length]

/-- C8 (amended): a zero neighborhood radius is neither rejected nor
guarded: `_neighborhood_function` evaluates the Gaussian kernel with the
zero divisor unconditionally (numpy float division by zero emits inf/nan
values with only a runtime warning, raising nothing), and the per-sample
update at `sigma = 0` still completes, producing a weight grid of the full
`(rows, cols, input_dim)` shape. -/
theorem C8_sigma_zero_unguarded (rows cols input_dim : ℕ) (w : Grid) (x : Vec)
    (lr : ℝ) (hshape : grid_shape w rows cols input_dim)
    (hx : x.length = input_dim) :
    (∀ gd : List (List ℤ), (neighborhood_function gd 0).length = gd.length) ∧
    grid_shape (update_weights (rows, cols) w x lr 0) rows cols input_dim :=
  ⟨fun gd => neighborhood_function_length gd 0,
    update_weights_shape rows cols input_dim w x lr 0 hshape hx⟩

/-- Witness for C8 on a concrete one-cell grid. -/
theorem C8_sigma_zero_unguarded_witness :
    grid_shape [[[(3 : ℝ)]]] 1 1 1 ∧ ([(2 : ℝ)] : Vec).length = 1 ∧
    ((∀ gd : List (List ℤ), (neighborhood_function gd 0).length = gd.length) ∧
      grid_shape (update_weights (1, 1) [[[(3 : ℝ)]]] [(2 : ℝ)] 1 0) 1 1 1) := by
  have hshape : grid_shape [[[(3 : ℝ)]]] 1 1 1 := by
    refine ⟨rfl, ?_⟩
    intro row hrow
    simp only [List.mem_singleton] at hrow
    subst hrow
    refine ⟨rfl, ?_⟩
    intro v hv
    simp only [List.mem_singleton] at hv
    subst hv
    rfl
  exact ⟨hshape, rfl,
    C8_sigma_zero_unguarded 1 1 1 [[[(3 : ℝ)]]] [(2 : ℝ)] 1 hshape rfl⟩

/-- C9: for every dataset and every model with an initialized weight grid,
`transform` returns one BMU coordinate per sample and leaves the model
state unchanged, so calling it twice in succession yields identical
coordinate sequences. -/
theorem C9_transform_pure (s : SOM) (w : Grid) (X : List Vec)
    (hw : s.weights = some w) :
    s.transform X = some (s, X.map (fun x => find_bmu s.grid_sz w x)) ∧
    (s.transform X).bind (fun p => p.1.transform X) =
      some (s, X.map (fun x => find_bmu s.grid_sz w x)) := by
  have h1 : s.transform X =
      some (s, X.map (fun x => find_bmu s.grid_sz w x)) := by
    unfold SOM.transform
    rw [hw]
  exact ⟨h1, by rw [h1]; exact h1⟩

/-- Witness for C9 on a concrete initialized single-cell model. -/
theorem C9_transform_pure_witness :
    (SOM.mk (1, 1) 1 (some [[[(0 : ℝ)]]])).weights = some [[[(0 : ℝ)]]] ∧
    ((SOM.mk (1, 1) 1 (some [[[(0 : ℝ)]]])).transform [[(1 : ℝ)]] =
        some (SOM.mk (1, 1) 1 (some [[[(0 : ℝ)]]]),
          ([[(1 : ℝ)]] : List Vec).map
            (fun x => find_bmu (SOM.mk (1, 1) 1 (some [[[(0 : ℝ)]]])).grid_sz
              [[[(0 : ℝ)]]] x)) ∧
      ((SOM.mk (1, 1) 1 (some [[[(0 : ℝ)]]])).transform [[(1 : ℝ)]]).bind
          (fun p => p.1.transform [[(1 : ℝ)]]) =
        some (SOM.mk (1, 1) 1 (some [[[(0 : ℝ)]]]),
          ([[(1 : ℝ)]] : List Vec).map
            (fun x => find_bmu (SOM.mk (1, 1) 1 (some [[[(0 : ℝ)]]])).grid_sz
              [[[(0 : ℝ)]]] x))) :=
  ⟨rfl, C9_transform_pure _ _ _ rfl⟩

/-- C10: if a SOM is constructed with an init method string other than
"random" or "pca", weight initialization raises no error and produces no
grid (it returns None), so a subsequent fit call stores the absent grid
and proceeds rather than failing at initialization. -/
theorem C10_unknown_init_method (rows cols input_dim : ℕ)
    (randn : ℕ → ℕ → ℕ → ℝ) (pca : List Vec → Vec × Vec × ℝ × ℝ)
    (X : List Vec) (method : String)
    (h1 : method ≠ "random") (h2 : method ≠ "pca") :
    init_weights rows cols input_dim randn pca (some X) method =
      .ok none ∧
    fit_init none rows cols input_dim randn pca X method = .ok none := by
  have h : init_weights rows cols input_dim randn pca (some X) method =
      .ok none := by
    unfold init_weights
    rw [if_neg h1, if_neg h2]
  exact ⟨h, h⟩

/-- Witness for C10 with the method string "xavier". -/
theorem C10_unknown_init_method_witness :
    ("xavier" : String) ≠ "random" ∧ ("xavier" : String) ≠ "pca" ∧
    (init_weights 2 2 1 (fun _ _ _ => 0)
        (fun _ => ([(1 : ℝ)], [(1 : ℝ)], (1 : ℝ), (1 : ℝ)))
        (some [[(0 : ℝ)]]) "xavier" = .ok none ∧
      fit_init none 2 2 1 (fun _ _ _ => 0)
        (fun _ => ([(1 : ℝ)], [(1 : ℝ)], (1 : ℝ), (1 : ℝ)))
        [[(0 : ℝ)]] "xavier" = .ok none) :=
  ⟨by decide, by decide,
    C10_unknown_init_method 2 2 1 (fun _ _ _ => 0)
      (fun _ => ([(1 : ℝ)], [(1 : ℝ)], (1 : ℝ), (1 : ℝ))) [[(0 : ℝ)]]
      "xavier" (by decide) (by decide)⟩
